import Mathlib

/-!
Shallow embedding of the secondary-structure scoring core of this repository
(the functions `q3_acc`, `segment_of_overlap` and `get_segments` defined in the
notebooks), together with theorems settling the specification's claims about
them.

Modelling conventions:
* The three structural-class labels `'H'`, `'E'`, `'-'` become the inductive
  type `Label` (constructor `C` stands for the coil character `'-'`).
* A label sequence (Python string over that alphabet) becomes `List Label`.
* Python/numpy floating-point arithmetic is modelled with exact rationals `ℚ`;
  every concrete value appearing in the claims (0, 1/2, 3/4, 1, 8/7, ...) is
  computed exactly by both.
* `np.intersect1d` / `np.union1d` on the duplicate-free position arrays that
  `get_segments` produces have the set-cardinality semantics modelled below by
  membership filters.
* Fallible behaviour is made explicit: `segment_of_overlap` returns
  `Except ScoreError ℚ` where the only error the source can raise is the
  Python `ZeroDivisionError` from the unguarded final division
  `val_total / N_total`; `q3_acc` returns `Option ℚ` where `none` models the
  numpy exceptions it can raise (the `IndexError` from reading `shape[0]` of a
  0-d array produced by the squeeze, and a failed broadcast in `real == pred`).
-/

/-- One structural-class label: helix `'H'`, strand `'E'`, or coil `'-'`
(constructor `C`). -/
inductive Label
  | H
  | E
  | C
deriving DecidableEq, Repr

/-- Maximal runs of equal consecutive labels, in order of appearance: the list
`["".join(grp) for val, grp in itertools.groupby(ss_str)]` of the source. -/
def runs : List Label → List (List Label)
  | [] => []
  | [a] => [[a]]
  | a :: b :: s =>
    match runs (b :: s) with
    | [] => [[a]]
    | r :: rs => if a = b then (a :: r) :: rs else [a] :: r :: rs

/-- Attach to each run its contiguous 0-based position range, mirroring the
`idx_start` / `np.arange(idx_start, idx_start + len(i))` loop of
`get_segments`. -/
def attachPositions : ℕ → List (List Label) → List (List Label × List ℕ)
  | _, [] => []
  | start, r :: rs =>
    (r, (List.range r.length).map (· + start)) :: attachPositions (start + r.length) rs

/-- All segments of a sequence with their position ranges, in left-to-right
order (the flat run list of `get_segments` before it is distributed into the
per-label dictionary). -/
def segments (s : List Label) : List (List Label × List ℕ) :=
  attachPositions 0 (runs s)

/-- `get_segments ss_str[k]`: the segments whose first character is `k`.
The source appends each run to `segment_types[ss_strs[i][0]]` while scanning
the run list in order, which is exactly a stable filter of the run list by its
head character. -/
def get_segments (s : List Label) (k : Label) : List (List Label × List ℕ) :=
  (segments s).filter (fun seg => decide (seg.1.head? = some k))

/-- `minov = len(np.intersect1d(i[1], j[1]))`: the number of shared positions.
The position lists are duplicate-free, so a membership filter counts the
intersection's cardinality. -/
def minov (i j : List Label × List ℕ) : ℕ :=
  (i.2.filter (fun p => decide (p ∈ j.2))).length

/-- `maxov = len(np.union1d(i[1], j[1]))`: the number of positions covered by
either segment (cardinality of the union of two duplicate-free lists). -/
def maxov (i j : List Label × List ℕ) : ℕ :=
  i.2.length + (j.2.filter (fun p => decide (p ∉ i.2))).length

/-- `delta = np.min([maxov-minov, minov, np.floor(l_s1/2), np.floor(l_s2/2)])`.
All four entries are non-negative integers (`np.floor` of half an integer
length is integral), so the minimum is taken in `ℕ`. -/
def delta (i j : List Label × List ℕ) : ℕ :=
  min (maxov i j - minov i j) (min (minov i j) (min (i.2.length / 2) (j.2.length / 2)))

/-- The contribution of one reference/prediction segment pair to `subsum_k`:
`l_s1 * (minov + delta) / maxov` when `minov > 0`, and nothing otherwise. -/
def pairValue (i j : List Label × List ℕ) : ℚ :=
  if 0 < minov i j then
    ((i.2.length : ℚ) * ((minov i j : ℚ) + (delta i j : ℚ))) / (maxov i j : ℚ)
  else 0

/-- The failure the source can actually raise while scoring: the Python
`ZeroDivisionError` from the unguarded `sov = val_total / N_total` when
`N_total == 0`.  No other error (and in particular no dedicated
`EmptySequence` or `LengthMismatch` signal) exists in the code. -/
inductive ScoreError
  | zeroDivisionError
deriving DecidableEq, Repr

/-- The dictionary keys of `get_segments`'s result, in insertion order:
`'E'`, `'H'`, `'-'`. -/
def labelKeys : List Label := [Label.E, Label.H, Label.C]

/-- `segment_of_overlap(ss_ref_str, ss_pred_str)`: for every key `k`,
`N_k` accumulates the length of every reference segment of class `k`
(whether or not it overlaps anything), and `subsum_k` accumulates
`l_s1 * (minov + delta) / maxov` over the intersecting same-class pairs;
the result is `val_total / N_total`, a `ZeroDivisionError` when
`N_total = 0`. -/
def segment_of_overlap (ss_ref ss_pred : List Label) : Except ScoreError ℚ :=
  let N_total : ℕ :=
    (labelKeys.map (fun k => ((get_segments ss_ref k).map (fun i => i.2.length)).sum)).sum
  let val_total : ℚ :=
    (labelKeys.map (fun k =>
      ((get_segments ss_ref k).map (fun i =>
        ((get_segments ss_pred k).map (fun j => pairValue i j)).sum)).sum)).sum
  if N_total = 0 then Except.error ScoreError.zeroDivisionError
  else Except.ok (val_total / (N_total : ℚ))

/-- A numpy value reachable inside `q3_acc` from a flat (1-d) label-array
input: either still a 1-d array, or the 0-d scalar that `np.squeeze(x, 0)`
produces out of a shape-`(1,)` array. -/
inductive NpVal
  | arr (xs : List Label)
  | scalar (x : Label)
deriving DecidableEq, Repr

/-- The `if x.shape[0] == 1: x = np.squeeze(x, 0)` step of `q3_acc` on a flat
input: a length-one array becomes a 0-d scalar, anything else is untouched. -/
def npSqueeze : List Label → NpVal
  | [x] => NpVal.scalar x
  | xs => NpVal.arr xs

/-- `np.sum(real == pred)` on the squeezed values: scalars broadcast against
arrays; two arrays compare elementwise only when their lengths agree, and a
non-broadcastable pair raises (`none`). -/
def npEqSum : NpVal → NpVal → Option ℕ
  | NpVal.scalar a, NpVal.scalar b => some (if a = b then 1 else 0)
  | NpVal.scalar a, NpVal.arr bs => some (bs.countP (fun b => decide (a = b)))
  | NpVal.arr as, NpVal.scalar b => some (as.countP (fun a => decide (a = b)))
  | NpVal.arr as, NpVal.arr bs =>
    if as.length = bs.length then
      some ((as.zip bs).countP (fun p => decide (p.1 = p.2)))
    else none

/-- `x.shape[0]`: the length of a 1-d array; on a 0-d array (empty shape
tuple) the subscript raises `IndexError` (`none`). -/
def npShape0 : NpVal → Option ℕ
  | NpVal.arr xs => some xs.length
  | NpVal.scalar _ => none

/-- `q3_acc(real, pred)` on flat label-sequence inputs: squeeze each
shape-`(1,)` input to a 0-d scalar, then `np.sum(real == pred) / real.shape[0]`.
`none` models the exceptions (failed broadcast, or `IndexError` on
`real.shape[0]` after the squeeze).  For `real.shape[0] = 0` numpy returns the
float NaN; that junk value is modelled by the rational `s / 0 = 0` and no
theorem below relies on it. -/
def q3_acc (real pred : List Label) : Option ℚ := do
  let r := npSqueeze real
  let p := npSqueeze pred
  let s ← npEqSum r p
  let n ← npShape0 r
  some ((s : ℚ) / (n : ℚ))

/-- One segment's positions lie strictly to the left of another's. -/
def segBefore (x y : List Label × List ℕ) : Prop :=
  ∀ p ∈ x.2, ∀ q ∈ y.2, p < q

/-- Two segments cover disjoint position sets. -/
def segDisjoint (x y : List Label × List ℕ) : Prop :=
  ∀ p, p ∈ x.2 → p ∉ y.2

/-- All segments of a sequence pooled across the three label groups, in the
order the dictionary stores them (`'E'`, `'H'`, `'-'`). -/
def pooledSegments (s : List Label) : List (List Label × List ℕ) :=
  get_segments s Label.E ++ get_segments s Label.H ++ get_segments s Label.C

/-! ## Structural lemmas about run extraction and position attachment -/

/-- Concatenating the runs of a sequence gives the sequence back. -/
lemma runs_flatten (s : List Label) : (runs s).flatten = s := by
  induction s using runs.induct with
  | case1 => rfl
  | case2 a => rfl
  | case3 a b s h ih =>
    rw [h] at ih
    simp at ih
  | case4 b s r rs heq ih =>
    rw [runs, heq]
    dsimp only
    rw [if_pos rfl]
    rw [heq] at ih
    simp only [List.flatten_cons, List.cons_append] at ih ⊢
    rw [ih]
  | case5 a b s r rs heq hab ih =>
    rw [runs, heq]
    dsimp only
    rw [if_neg hab]
    rw [heq] at ih
    simp only [List.flatten_cons, List.cons_append, List.nil_append] at ih ⊢
    rw [ih]

/-- Every run is a non-empty list. -/
lemma mem_runs_ne_nil {s : List Label} {r : List Label} (h : r ∈ runs s) : r ≠ [] := by
  induction s using runs.induct with
  | case1 => simp [runs] at h
  | case2 a => simp [runs] at h; simp [h]
  | case3 a b s hh ih =>
    rw [runs, hh] at h
    dsimp only at h
    simp at h
    simp [h]
  | case4 b s r' rs heq ih =>
    rw [runs, heq] at h
    dsimp only at h
    rw [if_pos rfl] at h
    rcases List.mem_cons.mp h with h1 | h1
    · simp [h1]
    · exact ih (heq ▸ List.mem_cons_of_mem _ h1)
  | case5 a b s r' rs heq hab ih =>
    rw [runs, heq] at h
    dsimp only at h
    rw [if_neg hab] at h
    rcases List.mem_cons.mp h with h1 | h1
    · simp [h1]
    · exact ih (heq ▸ h1)

/-- A non-empty sequence has at least one run. -/
lemma runs_ne_nil {s : List Label} (h : s ≠ []) : runs s ≠ [] := by
  intro hr
  have := runs_flatten s
  rw [hr] at this
  exact h this.symm

/-- Membership in a shifted `List.range` is an interval condition. -/
lemma mem_shiftRange {p n L : ℕ} : p ∈ (List.range L).map (· + n) ↔ n ≤ p ∧ p < n + L := by
  simp only [List.mem_map, List.mem_range]
  constructor
  · rintro ⟨m, hm, rfl⟩; omega
  · rintro ⟨h1, h2⟩; exact ⟨p - n, by omega, by omega⟩

/-- The run component of an attached segment comes from the run list. -/
lemma attachPositions_fst {n : ℕ} {rs : List (List Label)} {seg : List Label × List ℕ}
    (h : seg ∈ attachPositions n rs) : seg.1 ∈ rs := by
  induction rs generalizing n with
  | nil => simp [attachPositions] at h
  | cons r rs ih =>
    rw [attachPositions] at h
    rcases List.mem_cons.mp h with h1 | h1
    · rw [h1]; exact List.mem_cons_self _ _
    · exact List.mem_cons_of_mem _ (ih h1)

/-- A segment covers as many positions as its run has labels. -/
lemma attachPositions_len {n : ℕ} {rs : List (List Label)} {seg : List Label × List ℕ}
    (h : seg ∈ attachPositions n rs) : seg.2.length = seg.1.length := by
  induction rs generalizing n with
  | nil => simp [attachPositions] at h
  | cons r rs ih =>
    rw [attachPositions] at h
    rcases List.mem_cons.mp h with h1 | h1
    · rw [h1]; simp
    · exact ih h1

/-- All positions produced from offset `n` onwards are at least `n`. -/
lemma attachPositions_lb {n : ℕ} {rs : List (List Label)} {seg : List Label × List ℕ}
    (h : seg ∈ attachPositions n rs) : ∀ p ∈ seg.2, n ≤ p := by
  induction rs generalizing n with
  | nil => simp [attachPositions] at h
  | cons r rs ih =>
    rw [attachPositions] at h
    rcases List.mem_cons.mp h with h1 | h1
    · intro p hp
      rw [h1] at hp
      exact (mem_shiftRange.mp hp).1
    · intro p hp
      have := ih h1 p hp
      omega

/-- Attached segments appear in strictly increasing position order. -/
lemma attachPositions_pairwise (n : ℕ) (rs : List (List Label)) :
    List.Pairwise segBefore (attachPositions n rs) := by
  induction rs generalizing n with
  | nil => exact List.Pairwise.nil
  | cons r rs ih =>
    rw [attachPositions]
    refine List.Pairwise.cons ?_ (ih _)
    intro seg hseg
    intro p hp q hq
    have hq' : n + r.length ≤ q := attachPositions_lb hseg q hq
    have hp' : p < n + r.length := (mem_shiftRange.mp hp).2
    omega

/-- Each position in the covered interval lies in exactly one attached
segment, and positions outside it lie in none. -/
lemma attachPositions_countP (p n : ℕ) (rs : List (List Label)) :
    (attachPositions n rs).countP (fun seg => decide (p ∈ seg.2)) =
      if n ≤ p ∧ p < n + (rs.map List.length).sum then 1 else 0 := by
  induction rs generalizing n with
  | nil =>
    simp only [attachPositions, List.countP_nil, List.map_nil, List.sum_nil, Nat.add_zero]
    rw [if_neg (by omega)]
  | cons r rs ih =>
    rw [attachPositions, List.countP_cons, ih (n + r.length)]
    simp only [decide_eq_true_eq, List.map_cons, List.sum_cons]
    simp only [mem_shiftRange]
    split_ifs <;> omega

/-! ## Lemmas about the per-label segment groups -/

/-- The full segment list is ordered left to right. -/
lemma segments_pairwise (s : List Label) : List.Pairwise segBefore (segments s) :=
  attachPositions_pairwise 0 (runs s)

/-- Every segment covers at least one position. -/
lemma segments_len_pos {s : List Label} {seg : List Label × List ℕ}
    (h : seg ∈ segments s) : 0 < seg.2.length := by
  rw [attachPositions_len h]
  exact List.length_pos.mpr (mem_runs_ne_nil (attachPositions_fst h))

/-- Each position below the sequence length lies in exactly one segment of the
flat segment list, and no position at or above it lies in any. -/
lemma segments_countP (s : List Label) (p : ℕ) :
    (segments s).countP (fun seg => decide (p ∈ seg.2)) = if p < s.length then 1 else 0 := by
  rw [segments, attachPositions_countP]
  have : (List.map List.length (runs s)).sum = s.length := by
    rw [← List.length_flatten, runs_flatten]
  rw [this]
  split_ifs <;> omega

/-- Membership in a label group is membership in the flat segment list plus
the head-label condition. -/
lemma mem_get_segments {s : List Label} {k : Label} {seg : List Label × List ℕ} :
    seg ∈ get_segments s k ↔ seg ∈ segments s ∧ seg.1.head? = some k := by
  simp [get_segments, List.mem_filter]

/-- Segments within one label group are ordered left to right. -/
lemma get_segments_pairwise (s : List Label) (k : Label) :
    List.Pairwise segBefore (get_segments s k) :=
  (segments_pairwise s).sublist (List.filter_sublist _)

lemma segBefore_disjoint {x y : List Label × List ℕ} (h : segBefore x y) : segDisjoint x y := by
  intro p hp hq
  exact lt_irrefl p (h p hp p hq)

lemma segDisjoint_symm : Symmetric segDisjoint := by
  intro x y h p hp hq
  exact h p hq hp

/-- Distinct segments of the flat list cover disjoint position sets. -/
lemma segments_disjoint (s : List Label) : List.Pairwise segDisjoint (segments s) :=
  (segments_pairwise s).imp segBefore_disjoint

/-- Distinct segments of one label group cover disjoint position sets. -/
lemma get_segments_disjoint (s : List Label) (k : Label) :
    List.Pairwise segDisjoint (get_segments s k) :=
  (get_segments_pairwise s k).imp segBefore_disjoint

/-- A label group never lists the same segment twice. -/
lemma get_segments_nodup (s : List Label) (k : Label) : (get_segments s k).Nodup := by
  refine (get_segments_pairwise s k).imp_of_mem ?_
  intro a b ha hb hab
  intro heq
  subst heq
  obtain ⟨p, hp⟩ := List.exists_mem_of_ne_nil a.2
    (List.length_pos.mp (segments_len_pos (mem_get_segments.mp ha).1))
  exact lt_irrefl p (hab p hp p hp)

/-! ## Lemmas about the per-pair overlap quantities -/

/-- A segment overlaps itself in all of its positions. -/
lemma minov_self (i : List Label × List ℕ) : minov i i = i.2.length := by
  rw [minov]
  congr 1
  rw [List.filter_eq_self]
  intro a ha
  simpa using ha

/-- The union of a segment with itself adds nothing. -/
lemma maxov_self (i : List Label × List ℕ) : maxov i i = i.2.length := by
  rw [maxov]
  have : (i.2.filter (fun p => decide (p ∉ i.2))) = [] := by
    rw [List.filter_eq_nil_iff]
    intro a ha
    simpa using ha
  rw [this]
  simp

/-- The correction term vanishes on a perfect self-overlap. -/
lemma delta_self (i : List Label × List ℕ) : delta i i = 0 := by
  rw [delta, minov_self, maxov_self]
  simp

/-- A non-empty segment paired with itself contributes exactly its length. -/
lemma pairValue_self {i : List Label × List ℕ} (h : 0 < i.2.length) :
    pairValue i i = (i.2.length : ℚ) := by
  rw [pairValue, if_pos (by rw [minov_self]; exact h)]
  rw [minov_self, maxov_self, delta_self]
  have hne : (i.2.length : ℚ) ≠ 0 := Nat.cast_ne_zero.mpr (Nat.pos_iff_ne_zero.mp h)
  push_cast
  field_simp

/-- Disjoint segments share no position. -/
lemma minov_eq_zero_of_disjoint {i j : List Label × List ℕ} (h : segDisjoint i j) :
    minov i j = 0 := by
  rw [minov]
  have : (i.2.filter (fun p => decide (p ∈ j.2))) = [] := by
    rw [List.filter_eq_nil_iff]
    intro a ha
    simpa using h a ha
  rw [this]
  rfl

/-- Disjoint segments contribute nothing. -/
lemma pairValue_eq_zero_of_disjoint {i j : List Label × List ℕ} (h : segDisjoint i j) :
    pairValue i j = 0 := by
  rw [pairValue, if_neg]
  rw [minov_eq_zero_of_disjoint h]
  omega

/-! ## Sum helpers -/

/-- A sum over a duplicate-free list where every entry but one vanishes. -/
lemma sum_map_eq_of_unique {α : Type} [DecidableEq α] {l : List α} {i : α} (f : α → ℚ)
    (hi : i ∈ l) (hnd : l.Nodup) (h0 : ∀ j ∈ l, j ≠ i → f j = 0) :
    (l.map f).sum = f i := by
  induction l with
  | nil => simp at hi
  | cons a l ih =>
    rcases List.mem_cons.mp hi with h1 | h1
    · subst h1
      simp only [List.map_cons, List.sum_cons]
      have : ((l.map f).sum) = 0 := by
        apply List.sum_eq_zero
        intro x hx
        obtain ⟨b, hb, rfl⟩ := List.mem_map.mp hx
        have hbne : b ≠ i := by
          intro hba
          subst hba
          exact (List.nodup_cons.mp hnd).1 hb
        exact h0 b (List.mem_cons_of_mem _ hb) hbne
      rw [this, add_zero]
    · have hane : a ≠ i := by
        intro hai
        subst hai
        exact (List.nodup_cons.mp hnd).1 h1
      simp only [List.map_cons, List.sum_cons]
      rw [h0 a (List.mem_cons_self _ _) hane, zero_add]
      exact ih h1 (List.nodup_cons.mp hnd).2 (fun j hj => h0 j (List.mem_cons_of_mem _ hj))

/-- An element of a list of naturals is at most the list's sum. -/
lemma mem_le_sum_nat {l : List ℕ} {a : ℕ} (h : a ∈ l) : a ≤ l.sum := by
  induction l with
  | nil => simp at h
  | cons b l ih =>
    rcases List.mem_cons.mp h with h1 | h1
    · subst h1; simp
    · simp only [List.sum_cons]
      exact le_add_of_nonneg_of_le (Nat.zero_le _) (ih h1)

/-- Splitting a position count over the three head-label filters loses
nothing, because every segment's run starts with exactly one label. -/
lemma countP_filter_head_split (l : List (List Label × List ℕ))
    (hne : ∀ seg ∈ l, seg.1 ≠ []) (p : ℕ) :
    ((l.filter (fun seg => decide (seg.1.head? = some Label.E))).countP
        (fun seg => decide (p ∈ seg.2)))
      + ((l.filter (fun seg => decide (seg.1.head? = some Label.H))).countP
        (fun seg => decide (p ∈ seg.2)))
      + ((l.filter (fun seg => decide (seg.1.head? = some Label.C))).countP
        (fun seg => decide (p ∈ seg.2)))
      = l.countP (fun seg => decide (p ∈ seg.2)) := by
  induction l with
  | nil => rfl
  | cons seg l ih =>
    have hseg := hne seg (List.mem_cons_self _ _)
    have ihl := ih (fun s hs => hne s (List.mem_cons_of_mem _ hs))
    obtain ⟨x, xs, hx⟩ : ∃ x xs, seg.1 = x :: xs := by
      cases h : seg.1 with
      | nil => exact absurd h hseg
      | cons x xs => exact ⟨x, xs, rfl⟩
    cases x <;>
      simp only [List.filter_cons, List.countP_cons, hx, List.head?_cons, Option.some.injEq,
        decide_eq_true_eq] <;>
      simp only [reduceCtorEq, if_true, if_false, List.countP_cons, decide_eq_true_eq] <;>
      omega

/-- Pooled segments all come from the flat segment list. -/
lemma mem_pooledSegments {s : List Label} {seg : List Label × List ℕ}
    (h : seg ∈ pooledSegments s) : seg ∈ segments s := by
  rw [pooledSegments] at h
  rcases List.mem_append.mp h with h1 | h1
  · rcases List.mem_append.mp h1 with h2 | h2 <;> exact (mem_get_segments.mp h2).1
  · exact (mem_get_segments.mp h1).1

/-! ## Support for the identity property of the overlap score -/

lemma attachPositions_ne_nil {n : ℕ} {rs : List (List Label)} (h : rs ≠ []) :
    attachPositions n rs ≠ [] := by
  cases rs with
  | nil => exact absurd rfl h
  | cons r rs => simp [attachPositions]

lemma mem_labelKeys (k : Label) : k ∈ labelKeys := by
  cases k <;> simp [labelKeys]

/-- Scoring a label group against itself: each segment meets only itself,
where it contributes exactly its length, so the class subsum equals `N_k`. -/
lemma sov_class_sum_self (x : List Label) (k : Label) :
    ((get_segments x k).map (fun i =>
        ((get_segments x k).map (fun j => pairValue i j)).sum)).sum =
      ((((get_segments x k).map (fun i => i.2.length)).sum : ℕ) : ℚ) := by
  rw [List.map_congr_left (g := fun i => ((i.2.length : ℕ) : ℚ)) ?_]
  · rw [Nat.cast_list_sum, List.map_map]
    rfl
  · intro i hi
    have hlen : 0 < i.2.length := segments_len_pos (mem_get_segments.mp hi).1
    rw [sum_map_eq_of_unique (fun j => pairValue i j) hi (get_segments_nodup x k) ?_]
    · exact pairValue_self hlen
    · intro j hj hji
      exact pairValue_eq_zero_of_disjoint
        (((get_segments_disjoint x k).forall segDisjoint_symm) hi hj (Ne.symm hji))

/-- For a non-empty reference, `N_total` is positive (it receives the length
of at least one non-empty segment). -/
lemma sov_N_total_pos (x : List Label) (hx : x ≠ []) :
    0 < (labelKeys.map (fun k => ((get_segments x k).map (fun i => i.2.length)).sum)).sum := by
  obtain ⟨seg0, hseg0⟩ := List.exists_mem_of_ne_nil _ (attachPositions_ne_nil (runs_ne_nil hx))
  have hseg0' : seg0 ∈ segments x := hseg0
  obtain ⟨c, cs, hc⟩ : ∃ c cs, seg0.1 = c :: cs := by
    cases h : seg0.1 with
    | nil => exact absurd h (mem_runs_ne_nil (attachPositions_fst hseg0'))
    | cons c cs => exact ⟨c, cs, rfl⟩
  have hmem : seg0 ∈ get_segments x c :=
    mem_get_segments.mpr ⟨hseg0', by rw [hc]; rfl⟩
  have h1 : 0 < seg0.2.length := segments_len_pos hseg0'
  have h2 : seg0.2.length ≤ ((get_segments x c).map (fun i => i.2.length)).sum :=
    mem_le_sum_nat (List.mem_map_of_mem _ hmem)
  have h3 : ((get_segments x c).map (fun i => i.2.length)).sum ≤
      (labelKeys.map (fun k => ((get_segments x k).map (fun i => i.2.length)).sum)).sum :=
    mem_le_sum_nat (List.mem_map_of_mem _ (mem_labelKeys c))
  omega

/-! ## Support for the residue-accuracy claims -/

/-- Counting matching positions never exceeds the reference length. -/
lemma zipcount_le_length (a b : List Label) :
    (a.zip b).countP (fun p => decide (p.1 = p.2)) ≤ a.length := by
  refine le_trans (List.countP_le_length _) ?_
  rw [List.length_zip]
  omega

/-- With equal lengths, all positions match exactly when the lists are
equal. -/
lemma zipcount_eq_length_iff {a b : List Label} (hlen : a.length = b.length) :
    ((a.zip b).countP (fun p => decide (p.1 = p.2)) = a.length) ↔ a = b := by
  induction a generalizing b with
  | nil => cases b with
    | nil => simp
    | cons y b => simp at hlen
  | cons x a ih =>
    cases b with
    | nil => simp at hlen
    | cons y b =>
      have hlen' : a.length = b.length := by simpa using hlen
      rw [List.zip_cons_cons, List.countP_cons]
      by_cases hxy : x = y
      · subst hxy
        simp only [decide_eq_true_eq, if_pos rfl, List.length_cons, if_true]
        rw [Nat.add_right_cancel_iff, ih hlen']
        simp
      · rw [if_neg (by simpa using hxy)]
        have hc := zipcount_le_length a b
        simp only [List.length_cons]
        constructor
        · intro h
          omega
        · intro h
          exact absurd (List.cons.injEq .. ▸ h) (by simp [hxy])

/-- No position matches exactly when the match count is zero. -/
lemma zipcount_eq_zero_iff (a b : List Label) :
    ((a.zip b).countP (fun p => decide (p.1 = p.2)) = 0) ↔
      ∀ (i : ℕ) (hi : i < a.length) (hj : i < b.length), a[i] ≠ b[i] := by
  induction a generalizing b with
  | nil => simp
  | cons x a ih =>
    cases b with
    | nil => simp
    | cons y b =>
      rw [List.zip_cons_cons, List.countP_cons]
      by_cases hxy : x = y
      · constructor
        · intro h
          exfalso
          simp [hxy] at h
        · intro h
          exact absurd (by simpa using h 0 (by simp) (by simp)) (by simp [hxy])
      · rw [if_neg (by simpa using hxy), Nat.add_zero, ih b]
        constructor
        · intro h i hi hj
          cases i with
          | zero => simpa using hxy
          | succ n =>
            simp only [List.getElem_cons_succ]
            exact h n (by simpa using hi) (by simpa using hj)
        · intro h i hi hj
          have := h (i + 1) (by simpa using hi) (by simpa using hj)
          simpa using this

/-- Inputs of length at least two skip the squeeze. -/
lemma npSqueeze_eq_arr {xs : List Label} (h : xs.length ≠ 1) : npSqueeze xs = NpVal.arr xs := by
  cases xs with
  | nil => rfl
  | cons x t =>
    cases t with
    | nil => simp at h
    | cons y t' => rfl

/-- On equal-length inputs of length at least two, `q3_acc` returns the match
fraction. -/
lemma q3_acc_eq_count_div {a b : List Label} (hlen : a.length = b.length) (h2 : 2 ≤ a.length) :
    q3_acc a b =
      some ((((a.zip b).countP (fun p => decide (p.1 = p.2)) : ℕ) : ℚ) / (a.length : ℚ)) := by
  rw [q3_acc, npSqueeze_eq_arr (show a.length ≠ 1 by omega),
    npSqueeze_eq_arr (show b.length ≠ 1 by omega)]
  rw [npEqSum, if_pos hlen]
  rfl

/-! ## Claim theorems -/

/-- Claim C1: for every non-empty label sequence `x` over the alphabet
`{H, E, -}`, `segment_of_overlap x x` returns exactly `1`: every reference
segment overlaps its identical predicted segment with `overlap = union`, so
`delta = 0` and each matched pair contributes `l1`, whence
`val_total = N_total`. -/
theorem sov_identity (x : List Label) (hx : x ≠ []) :
    segment_of_overlap x x = Except.ok 1 := by
  have hpos := sov_N_total_pos x hx
  have hne : (labelKeys.map
      (fun k => ((get_segments x k).map (fun i => i.2.length)).sum)).sum ≠ 0 :=
    Nat.pos_iff_ne_zero.mp hpos
  simp only [segment_of_overlap]
  rw [if_neg hne]
  congr 1
  have hval : (labelKeys.map (fun k =>
      ((get_segments x k).map (fun i =>
        ((get_segments x k).map (fun j => pairValue i j)).sum)).sum)).sum =
      (((labelKeys.map
        (fun k => ((get_segments x k).map (fun i => i.2.length)).sum)).sum : ℕ) : ℚ) := by
    rw [List.map_congr_left (g := fun k =>
      ((((get_segments x k).map (fun i => i.2.length)).sum : ℕ) : ℚ))
      (fun k _ => sov_class_sum_self x k)]
    rw [Nat.cast_list_sum, List.map_map]
    rfl
  rw [hval]
  exact div_self (Nat.cast_ne_zero.mpr hne)

/-- Witness for C1: the identity property evaluated on the concrete non-empty
sequence `HEC`. -/
theorem sov_identity_witness :
    segment_of_overlap [Label.H, Label.E, Label.C] [Label.H, Label.E, Label.C] =
      Except.ok 1 :=
  sov_identity [Label.H, Label.E, Label.C] (by decide)

/-- Claim C2: the overlap score is not bounded above by `1`: for the
equal-length pair `HHHHHHH` versus `HHH-HHH` the single reference H-segment is
overlapped by two disjoint predicted H-segments, each contributing
`7 * (3 + 1) / 7 = 4`, so the score is `8/7 > 1`. -/
theorem sov_can_exceed_one :
    ∃ (a b : List Label) (q : ℚ), a.length = b.length ∧ a ≠ [] ∧
      segment_of_overlap a b = Except.ok q ∧ 1 < q := by
  refine ⟨[Label.H, Label.H, Label.H, Label.H, Label.H, Label.H, Label.H],
    [Label.H, Label.H, Label.H, Label.C, Label.H, Label.H, Label.H], 8/7,
    by decide, by decide, ?_, by norm_num⟩
  have hAE : get_segments [Label.H, Label.H, Label.H, Label.H, Label.H, Label.H, Label.H]
      Label.E = [] := by decide
  have hAH : get_segments [Label.H, Label.H, Label.H, Label.H, Label.H, Label.H, Label.H]
      Label.H = [([Label.H, Label.H, Label.H, Label.H, Label.H, Label.H, Label.H],
        [0, 1, 2, 3, 4, 5, 6])] := by decide
  have hAC : get_segments [Label.H, Label.H, Label.H, Label.H, Label.H, Label.H, Label.H]
      Label.C = [] := by decide
  have hBH : get_segments [Label.H, Label.H, Label.H, Label.C, Label.H, Label.H, Label.H]
      Label.H = [([Label.H, Label.H, Label.H], [0, 1, 2]),
        ([Label.H, Label.H, Label.H], [4, 5, 6])] := by decide
  simp only [segment_of_overlap, labelKeys, hAE, hAH, hAC, hBH,
    List.map_nil, List.map_cons, List.sum_nil, List.sum_cons]
  norm_num [pairValue,
    show minov ([Label.H, Label.H, Label.H, Label.H, Label.H, Label.H, Label.H],
      ([0, 1, 2, 3, 4, 5, 6] : List ℕ)) ([Label.H, Label.H, Label.H], [0, 1, 2]) = 3 from
      by decide,
    show maxov ([Label.H, Label.H, Label.H, Label.H, Label.H, Label.H, Label.H],
      ([0, 1, 2, 3, 4, 5, 6] : List ℕ)) ([Label.H, Label.H, Label.H], [0, 1, 2]) = 7 from
      by decide,
    show delta ([Label.H, Label.H, Label.H, Label.H, Label.H, Label.H, Label.H],
      ([0, 1, 2, 3, 4, 5, 6] : List ℕ)) ([Label.H, Label.H, Label.H], [0, 1, 2]) = 1 from
      by decide,
    show minov ([Label.H, Label.H, Label.H, Label.H, Label.H, Label.H, Label.H],
      ([0, 1, 2, 3, 4, 5, 6] : List ℕ)) ([Label.H, Label.H, Label.H], [4, 5, 6]) = 3 from
      by decide,
    show maxov ([Label.H, Label.H, Label.H, Label.H, Label.H, Label.H, Label.H],
      ([0, 1, 2, 3, 4, 5, 6] : List ℕ)) ([Label.H, Label.H, Label.H], [4, 5, 6]) = 7 from
      by decide,
    show delta ([Label.H, Label.H, Label.H, Label.H, Label.H, Label.H, Label.H],
      ([0, 1, 2, 3, 4, 5, 6] : List ℕ)) ([Label.H, Label.H, Label.H], [4, 5, 6]) = 1 from
      by decide]

/-- Claim C3 counterexample: the invariant `overlap + delta ≤ l1` fails.  With
reference `-HH-` and prediction `HHHH`, the matched H-segment pair has
`l1 = 2`, `l2 = 4`, `overlap = 2 > 0`, `union = 4`,
`delta = min(2, 2, 1, 2) = 1`, and `overlap + delta = 3 > 2 = l1`. -/
theorem sov_overlap_delta_cex :
    (([Label.H, Label.H], [1, 2]) : List Label × List ℕ) ∈
        get_segments [Label.C, Label.H, Label.H, Label.C] Label.H ∧
      (([Label.H, Label.H, Label.H, Label.H], [0, 1, 2, 3]) : List Label × List ℕ) ∈
        get_segments [Label.H, Label.H, Label.H, Label.H] Label.H ∧
      0 < minov ([Label.H, Label.H], [1, 2])
        ([Label.H, Label.H, Label.H, Label.H], [0, 1, 2, 3]) ∧
      (([Label.H, Label.H], ([1, 2] : List ℕ)) : List Label × List ℕ).2.length <
        minov ([Label.H, Label.H], [1, 2])
            ([Label.H, Label.H, Label.H, Label.H], [0, 1, 2, 3]) +
          delta ([Label.H, Label.H], [1, 2])
            ([Label.H, Label.H, Label.H, Label.H], [0, 1, 2, 3]) := by
  decide

/-- Claim C3 as amended: for every matched pair of intersecting same-class
segments, `overlap + delta ≤ l1 + l1 / 2` (the bound `l1` itself is too
strong; `overlap` is capped by `l1` and `delta` by `l1 / 2`, and both caps can
be attained simultaneously). -/
theorem sov_overlap_delta_bound (ss_ref ss_pred : List Label) (k : Label)
    (i j : List Label × List ℕ)
    (_hi : i ∈ get_segments ss_ref k) (_hj : j ∈ get_segments ss_pred k)
    (_hov : 0 < minov i j) :
    minov i j + delta i j ≤ i.2.length + i.2.length / 2 := by
  have h1 : minov i j ≤ i.2.length := by
    rw [minov]
    exact List.length_filter_le _ _
  have h2 : delta i j ≤ i.2.length / 2 := by
    rw [delta]
    omega
  omega

/-- Witness for the amended C3 at the counterexample's segment pair. -/
theorem sov_overlap_delta_bound_witness :
    minov ([Label.H, Label.H], [1, 2]) ([Label.H, Label.H, Label.H, Label.H], [0, 1, 2, 3]) +
        delta ([Label.H, Label.H], [1, 2])
          ([Label.H, Label.H, Label.H, Label.H], [0, 1, 2, 3]) ≤
      (([Label.H, Label.H], ([1, 2] : List ℕ)) : List Label × List ℕ).2.length +
        (([Label.H, Label.H], ([1, 2] : List ℕ)) : List Label × List ℕ).2.length / 2 :=
  sov_overlap_delta_bound [Label.C, Label.H, Label.H, Label.C]
    [Label.H, Label.H, Label.H, Label.H] Label.H
    ([Label.H, Label.H], [1, 2]) ([Label.H, Label.H, Label.H, Label.H], [0, 1, 2, 3])
    (by decide) (by decide) (by decide)

/-- Claim C4: on reference `HHHH` and prediction `HHEE`, `q3_acc` returns
`1/2` and `segment_of_overlap` returns exactly `3/4` (class H: `l1 = 4`,
`l2 = 2`, `overlap = 2`, `union = 4`, `delta = min(2, 2, 2, 1) = 1`,
`value = 4 * (2 + 1) / 4 = 3`, `N_total = 4`; the other classes contribute
nothing). -/
theorem scenario2_scores :
    q3_acc [Label.H, Label.H, Label.H, Label.H] [Label.H, Label.H, Label.E, Label.E] =
        some (1/2 : ℚ) ∧
      segment_of_overlap [Label.H, Label.H, Label.H, Label.H]
        [Label.H, Label.H, Label.E, Label.E] = Except.ok (3/4 : ℚ) := by
  constructor
  · rw [q3_acc_eq_count_div (by decide) (by decide),
      show ([Label.H, Label.H, Label.H, Label.H].zip
          [Label.H, Label.H, Label.E, Label.E]).countP (fun p => decide (p.1 = p.2)) = 2 from
        by decide]
    norm_num
  · have hrE : get_segments [Label.H, Label.H, Label.H, Label.H] Label.E = [] := by decide
    have hrH : get_segments [Label.H, Label.H, Label.H, Label.H] Label.H =
        [([Label.H, Label.H, Label.H, Label.H], [0, 1, 2, 3])] := by decide
    have hrC : get_segments [Label.H, Label.H, Label.H, Label.H] Label.C = [] := by decide
    have hpH : get_segments [Label.H, Label.H, Label.E, Label.E] Label.H =
        [([Label.H, Label.H], [0, 1])] := by decide
    simp only [segment_of_overlap, labelKeys, hrE, hrH, hrC, hpH,
      List.map_nil, List.map_cons, List.sum_nil, List.sum_cons]
    norm_num [pairValue,
      show minov ([Label.H, Label.H, Label.H, Label.H], ([0, 1, 2, 3] : List ℕ))
        ([Label.H, Label.H], [0, 1]) = 2 from by decide,
      show maxov ([Label.H, Label.H, Label.H, Label.H], ([0, 1, 2, 3] : List ℕ))
        ([Label.H, Label.H], [0, 1]) = 4 from by decide,
      show delta ([Label.H, Label.H, Label.H, Label.H], ([0, 1, 2, 3] : List ℕ))
        ([Label.H, Label.H], [0, 1]) = 1 from by decide]

/-- Claim C5: for every label sequence of length `N`, the segments produced by
`get_segments`, pooled across the three label groups, cover each position of
`{0, ..., N-1}` exactly once and no other position (first conjunct), any two
pooled segments sharing a position are the same segment (pairwise
disjointness, second conjunct), and within each label group the segments
appear in left-to-right order (third conjunct). -/
theorem segments_partition (s : List Label) :
    (∀ p : ℕ, (pooledSegments s).countP (fun seg => decide (p ∈ seg.2)) =
        if p < s.length then 1 else 0)
      ∧ (∀ x ∈ pooledSegments s, ∀ y ∈ pooledSegments s,
          ∀ p : ℕ, p ∈ x.2 → p ∈ y.2 → x = y)
      ∧ (∀ k : Label, List.Pairwise segBefore (get_segments s k)) := by
  refine ⟨?_, ?_, get_segments_pairwise s⟩
  · intro p
    have hne : ∀ seg ∈ segments s, seg.1 ≠ [] :=
      fun seg h => mem_runs_ne_nil (attachPositions_fst h)
    have hsplit := countP_filter_head_split (segments s) hne p
    rw [segments_countP s p] at hsplit
    simp only [pooledSegments, get_segments, List.countP_append] at hsplit ⊢
    split_ifs at hsplit ⊢ <;> omega
  · intro x hx y hy p hpx hpy
    by_contra hxy
    exact ((segments_disjoint s).forall segDisjoint_symm)
      (mem_pooledSegments hx) (mem_pooledSegments hy) hxy p hpx hpy

/-- Witness for C5 on the concrete sequence `HE`: position `0` is covered
exactly once by the pooled segments, and the two pooled segments containing
position `0` coincide. -/
theorem segments_partition_witness :
    ((pooledSegments [Label.H, Label.E]).countP (fun seg => decide (0 ∈ seg.2)) =
        if 0 < ([Label.H, Label.E] : List Label).length then 1 else 0)
      ∧ (([Label.H], [0]) : List Label × List ℕ) = (([Label.H], [0]) : List Label × List ℕ) :=
  ⟨(segments_partition [Label.H, Label.E]).1 0,
    (segments_partition [Label.H, Label.E]).2.1 ([Label.H], [0]) (by decide)
      ([Label.H], [0]) (by decide) 0 (by decide) (by decide)⟩

/-- Claim C6 counterexample: on a length-5 reference versus a length-4
prediction, `segment_of_overlap` does not signal any length mismatch; it
returns the numeric score `1`, computed from the two segmentations. -/
theorem sov_length_mismatch_cex :
    segment_of_overlap [Label.H, Label.H, Label.H, Label.H, Label.H]
      [Label.H, Label.H, Label.H, Label.H] = Except.ok (1 : ℚ) := by
  have hrE : get_segments [Label.H, Label.H, Label.H, Label.H, Label.H] Label.E = [] := by
    decide
  have hrH : get_segments [Label.H, Label.H, Label.H, Label.H, Label.H] Label.H =
      [([Label.H, Label.H, Label.H, Label.H, Label.H], [0, 1, 2, 3, 4])] := by decide
  have hrC : get_segments [Label.H, Label.H, Label.H, Label.H, Label.H] Label.C = [] := by
    decide
  have hpH : get_segments [Label.H, Label.H, Label.H, Label.H] Label.H =
      [([Label.H, Label.H, Label.H, Label.H], [0, 1, 2, 3])] := by decide
  simp only [segment_of_overlap, labelKeys, hrE, hrH, hrC, hpH,
    List.map_nil, List.map_cons, List.sum_nil, List.sum_cons]
  norm_num [pairValue,
    show minov ([Label.H, Label.H, Label.H, Label.H, Label.H], ([0, 1, 2, 3, 4] : List ℕ))
      ([Label.H, Label.H, Label.H, Label.H], [0, 1, 2, 3]) = 4 from by decide,
    show maxov ([Label.H, Label.H, Label.H, Label.H, Label.H], ([0, 1, 2, 3, 4] : List ℕ))
      ([Label.H, Label.H, Label.H, Label.H], [0, 1, 2, 3]) = 5 from by decide,
    show delta ([Label.H, Label.H, Label.H, Label.H, Label.H], ([0, 1, 2, 3, 4] : List ℕ))
      ([Label.H, Label.H, Label.H, Label.H], [0, 1, 2, 3]) = 1 from by decide]

/-- Claim C6 as amended: neither scoring function checks the lengths up
front.  On a length-5 reference versus a length-4 prediction,
`segment_of_overlap` returns the numeric score `1` computed from the two
segmentations, and `q3_acc` fails only later, inside the elementwise
comparison, when the two arrays cannot be broadcast — not with a dedicated
length-mismatch signal issued before any computation. -/
theorem length_mismatch_behavior :
    ([Label.H, Label.H, Label.H, Label.H, Label.H] : List Label).length ≠
        ([Label.H, Label.H, Label.H, Label.H] : List Label).length
      ∧ segment_of_overlap [Label.H, Label.H, Label.H, Label.H, Label.H]
          [Label.H, Label.H, Label.H, Label.H] = Except.ok (1 : ℚ)
      ∧ q3_acc [Label.H, Label.H, Label.H, Label.H, Label.H]
          [Label.H, Label.H, Label.H, Label.H] = none := by
  refine ⟨by decide, ?_, by rfl⟩
  have hrE : get_segments [Label.H, Label.H, Label.H, Label.H, Label.H] Label.E = [] := by
    decide
  have hrH : get_segments [Label.H, Label.H, Label.H, Label.H, Label.H] Label.H =
      [([Label.H, Label.H, Label.H, Label.H, Label.H], [0, 1, 2, 3, 4])] := by decide
  have hrC : get_segments [Label.H, Label.H, Label.H, Label.H, Label.H] Label.C = [] := by
    decide
  have hpH : get_segments [Label.H, Label.H, Label.H, Label.H] Label.H =
      [([Label.H, Label.H, Label.H, Label.H], [0, 1, 2, 3])] := by decide
  simp only [segment_of_overlap, labelKeys, hrE, hrH, hrC, hpH,
    List.map_nil, List.map_cons, List.sum_nil, List.sum_cons]
  norm_num [pairValue,
    show minov ([Label.H, Label.H, Label.H, Label.H, Label.H], ([0, 1, 2, 3, 4] : List ℕ))
      ([Label.H, Label.H, Label.H, Label.H], [0, 1, 2, 3]) = 4 from by decide,
    show maxov ([Label.H, Label.H, Label.H, Label.H, Label.H], ([0, 1, 2, 3, 4] : List ℕ))
      ([Label.H, Label.H, Label.H, Label.H], [0, 1, 2, 3]) = 5 from by decide,
    show delta ([Label.H, Label.H, Label.H, Label.H, Label.H], ([0, 1, 2, 3, 4] : List ℕ))
      ([Label.H, Label.H, Label.H, Label.H], [0, 1, 2, 3]) = 1 from by decide]

/-- Claim C7 counterexample: on two empty sequences `segment_of_overlap` does
not signal a dedicated empty-sequence error; it reaches the final division
with `N_total = 0` and fails with the raw division-by-zero, the only error the
code can raise. -/
theorem sov_empty_empty_cex :
    segment_of_overlap ([] : List Label) ([] : List Label) =
      Except.error ScoreError.zeroDivisionError := by
  rfl

/-- Claim C7 as amended: whenever the reference is empty — whatever the
prediction — `N_total = 0`, and `segment_of_overlap` fails with the raw
`ZeroDivisionError` of the unguarded `val_total / N_total`; no explicit
`EmptySequence` signal exists in the code. -/
theorem sov_empty_ref_zero_division (ss_pred : List Label) :
    segment_of_overlap [] ss_pred = Except.error ScoreError.zeroDivisionError := by
  rfl

/-- Witness for the amended C7 at a concrete non-empty prediction. -/
theorem sov_empty_ref_zero_division_witness :
    segment_of_overlap [] [Label.E] = Except.error ScoreError.zeroDivisionError :=
  sov_empty_ref_zero_division [Label.E]

/-- Claim C8: the overlap score is not symmetric, because `N_total` is
accumulated from the reference's segments only: for `HHHHHHH` versus
`HHH-HHH` the two orders give `8/7` and `24/49` respectively. -/
theorem sov_asymmetric :
    ∃ (a b : List Label), a.length = b.length ∧ a ≠ [] ∧ b ≠ [] ∧
      segment_of_overlap a b = Except.ok (8/7 : ℚ) ∧
      segment_of_overlap b a = Except.ok (24/49 : ℚ) ∧
      segment_of_overlap a b ≠ segment_of_overlap b a := by
  have hAE : get_segments [Label.H, Label.H, Label.H, Label.H, Label.H, Label.H, Label.H]
      Label.E = [] := by decide
  have hAH : get_segments [Label.H, Label.H, Label.H, Label.H, Label.H, Label.H, Label.H]
      Label.H = [([Label.H, Label.H, Label.H, Label.H, Label.H, Label.H, Label.H],
        [0, 1, 2, 3, 4, 5, 6])] := by decide
  have hAC : get_segments [Label.H, Label.H, Label.H, Label.H, Label.H, Label.H, Label.H]
      Label.C = [] := by decide
  have hBE : get_segments [Label.H, Label.H, Label.H, Label.C, Label.H, Label.H, Label.H]
      Label.E = [] := by decide
  have hBH : get_segments [Label.H, Label.H, Label.H, Label.C, Label.H, Label.H, Label.H]
      Label.H = [([Label.H, Label.H, Label.H], [0, 1, 2]),
        ([Label.H, Label.H, Label.H], [4, 5, 6])] := by decide
  have hBC : get_segments [Label.H, Label.H, Label.H, Label.C, Label.H, Label.H, Label.H]
      Label.C = [([Label.C], [3])] := by decide
  have h1 : segment_of_overlap
      [Label.H, Label.H, Label.H, Label.H, Label.H, Label.H, Label.H]
      [Label.H, Label.H, Label.H, Label.C, Label.H, Label.H, Label.H] =
      Except.ok (8/7 : ℚ) := by
    simp only [segment_of_overlap, labelKeys, hAE, hAH, hAC, hBH,
      List.map_nil, List.map_cons, List.sum_nil, List.sum_cons]
    norm_num [pairValue,
      show minov ([Label.H, Label.H, Label.H, Label.H, Label.H, Label.H, Label.H],
        ([0, 1, 2, 3, 4, 5, 6] : List ℕ)) ([Label.H, Label.H, Label.H], [0, 1, 2]) = 3 from
        by decide,
      show maxov ([Label.H, Label.H, Label.H, Label.H, Label.H, Label.H, Label.H],
        ([0, 1, 2, 3, 4, 5, 6] : List ℕ)) ([Label.H, Label.H, Label.H], [0, 1, 2]) = 7 from
        by decide,
      show delta ([Label.H, Label.H, Label.H, Label.H, Label.H, Label.H, Label.H],
        ([0, 1, 2, 3, 4, 5, 6] : List ℕ)) ([Label.H, Label.H, Label.H], [0, 1, 2]) = 1 from
        by decide,
      show minov ([Label.H, Label.H, Label.H, Label.H, Label.H, Label.H, Label.H],
        ([0, 1, 2, 3, 4, 5, 6] : List ℕ)) ([Label.H, Label.H, Label.H], [4, 5, 6]) = 3 from
        by decide,
      show maxov ([Label.H, Label.H, Label.H, Label.H, Label.H, Label.H, Label.H],
        ([0, 1, 2, 3, 4, 5, 6] : List ℕ)) ([Label.H, Label.H, Label.H], [4, 5, 6]) = 7 from
        by decide,
      show delta ([Label.H, Label.H, Label.H, Label.H, Label.H, Label.H, Label.H],
        ([0, 1, 2, 3, 4, 5, 6] : List ℕ)) ([Label.H, Label.H, Label.H], [4, 5, 6]) = 1 from
        by decide]
  have h2 : segment_of_overlap
      [Label.H, Label.H, Label.H, Label.C, Label.H, Label.H, Label.H]
      [Label.H, Label.H, Label.H, Label.H, Label.H, Label.H, Label.H] =
      Except.ok (24/49 : ℚ) := by
    simp only [segment_of_overlap, labelKeys, hBE, hBH, hBC, hAH, hAC,
      List.map_nil, List.map_cons, List.sum_nil, List.sum_cons]
    norm_num [pairValue,
      show minov (([Label.H, Label.H, Label.H], [0, 1, 2]) : List Label × List ℕ)
        ([Label.H, Label.H, Label.H, Label.H, Label.H, Label.H, Label.H],
          [0, 1, 2, 3, 4, 5, 6]) = 3 from by decide,
      show maxov (([Label.H, Label.H, Label.H], [0, 1, 2]) : List Label × List ℕ)
        ([Label.H, Label.H, Label.H, Label.H, Label.H, Label.H, Label.H],
          [0, 1, 2, 3, 4, 5, 6]) = 7 from by decide,
      show delta (([Label.H, Label.H, Label.H], [0, 1, 2]) : List Label × List ℕ)
        ([Label.H, Label.H, Label.H, Label.H, Label.H, Label.H, Label.H],
          [0, 1, 2, 3, 4, 5, 6]) = 1 from by decide,
      show minov (([Label.H, Label.H, Label.H], [4, 5, 6]) : List Label × List ℕ)
        ([Label.H, Label.H, Label.H, Label.H, Label.H, Label.H, Label.H],
          [0, 1, 2, 3, 4, 5, 6]) = 3 from by decide,
      show maxov (([Label.H, Label.H, Label.H], [4, 5, 6]) : List Label × List ℕ)
        ([Label.H, Label.H, Label.H, Label.H, Label.H, Label.H, Label.H],
          [0, 1, 2, 3, 4, 5, 6]) = 7 from by decide,
      show delta (([Label.H, Label.H, Label.H], [4, 5, 6]) : List Label × List ℕ)
        ([Label.H, Label.H, Label.H, Label.H, Label.H, Label.H, Label.H],
          [0, 1, 2, 3, 4, 5, 6]) = 1 from by decide]
  refine ⟨_, _, by decide, by decide, by decide, h1, h2, ?_⟩
  rw [h1, h2]
  simp only [ne_eq, Except.ok.injEq]
  norm_num

/-- Claim C9 counterexample: on the identical, non-empty, equal-length flat
pair `H` versus `H` the function returns no value at all — the squeeze turns
the shape-`(1,)` array into a 0-d scalar and the final `shape[0]` access
fails — so the accuracy is not `1` there as the claim requires. -/
theorem q3_acc_length_one_cex : q3_acc [Label.H] [Label.H] = none := by
  rfl

/-- Claim C9 as amended: for every pair of equal-length flat label sequences
of length at least two (the length-1 case fails, see the counterexample),
`q3_acc` returns a value in `[0, 1]`; the value is `1` exactly when the
sequences are identical and `0` exactly when no position matches. -/
theorem q3_acc_bounds (a b : List Label) (hlen : a.length = b.length) (h2 : 2 ≤ a.length) :
    ∃ q : ℚ, q3_acc a b = some q ∧ 0 ≤ q ∧ q ≤ 1 ∧ (q = 1 ↔ a = b) ∧
      (q = 0 ↔ ∀ (i : ℕ) (hi : i < a.length) (hj : i < b.length), a[i] ≠ b[i]) := by
  have hn : (0 : ℚ) < (a.length : ℚ) := by
    have : 0 < a.length := by omega
    exact_mod_cast this
  refine ⟨_, q3_acc_eq_count_div hlen h2, ?_, ?_, ?_, ?_⟩
  · exact div_nonneg (by positivity) (le_of_lt hn)
  · rw [div_le_one hn]
    exact_mod_cast zipcount_le_length a b
  · rw [div_eq_one_iff_eq (ne_of_gt hn)]
    rw [show ((((a.zip b).countP (fun p => decide (p.1 = p.2)) : ℕ) : ℚ) = (a.length : ℚ)) ↔
        ((a.zip b).countP (fun p => decide (p.1 = p.2)) = a.length) from Nat.cast_inj]
    exact zipcount_eq_length_iff hlen
  · rw [div_eq_zero_iff]
    constructor
    · intro h
      rcases h with h | h
      · exact (zipcount_eq_zero_iff a b).mp (by exact_mod_cast h)
      · exact absurd h (ne_of_gt hn)
    · intro h
      left
      exact_mod_cast (zipcount_eq_zero_iff a b).mpr h

/-- Witness for the amended C9 on the length-2 pair `HE` versus `HH`. -/
theorem q3_acc_bounds_witness :
    ∃ q : ℚ, q3_acc [Label.H, Label.E] [Label.H, Label.H] = some q ∧ 0 ≤ q ∧ q ≤ 1 ∧
      (q = 1 ↔ ([Label.H, Label.E] : List Label) = [Label.H, Label.H]) ∧
      (q = 0 ↔ ∀ (i : ℕ) (hi : i < ([Label.H, Label.E] : List Label).length)
        (hj : i < ([Label.H, Label.H] : List Label).length),
        ([Label.H, Label.E] : List Label)[i] ≠ ([Label.H, Label.H] : List Label)[i]) :=
  q3_acc_bounds [Label.H, Label.E] [Label.H, Label.H] (by decide) (by decide)

/-- Claim C10: on non-empty equal-length flat inputs, `q3_acc` fails to
return a score precisely when the input has length one: the squeeze intended
for batch wrappers turns the shape-`(1,)` array into a 0-d array, and the
final `real.shape[0]` access then raises. -/
theorem q3_acc_none_iff_length_one (a b : List Label) (hlen : a.length = b.length)
    (hne : a ≠ []) : (q3_acc a b = none ↔ a.length = 1) := by
  cases a with
  | nil => exact absurd rfl hne
  | cons x t =>
    cases t with
    | nil =>
      obtain ⟨y, hy⟩ : ∃ y, b = [y] := by
        cases b with
        | nil => simp at hlen
        | cons y t' =>
          cases t' with
          | nil => exact ⟨y, rfl⟩
          | cons z t'' => simp at hlen
      subst hy
      simp [q3_acc, npSqueeze, npEqSum, npShape0]
    | cons y t' =>
      have h2 : 2 ≤ (x :: y :: t').length := by simp
      rw [q3_acc_eq_count_div hlen h2]
      simp

/-- Witness for C10 at the length-1 pair, where the failure occurs. -/
theorem q3_acc_none_iff_length_one_witness :
    (q3_acc [Label.H] [Label.E] = none ↔ ([Label.H] : List Label).length = 1) :=
  q3_acc_none_iff_length_one [Label.H] [Label.E] (by decide) (by decide)
